import Mathlib

/-!
Shallow embedding of the send pipeline of the bulk email campaign sender
(backend/services: emailService.js, batchProcessor.js, queueService.js,
retryService.js; backend/models/Job.js), together with theorems settling
the testable properties of its specification.

Conventions of the embedding:
* JavaScript exceptions of the provider transports are modelled as
  `Except String` values; the `try/catch` of `sendEmail` consumes them.
* `await`ed backoff delays are recorded in a `delays` trace field (the
  argument of `setTimeout`, in milliseconds).
* MongoDB update operations (`$inc`, `$set`, `$push`, and conditional
  updates keyed on the current status) are modelled as pure state
  transformers on record types mirroring the Mongoose schemas.
* External side effects that touch no pipeline state (console logging,
  Analytics rows, socket.io emissions) are dropped.
-/

namespace EmailBomber

/-! ## ProviderRouter (emailService.js) -/

/-- One configured provider, as pushed by `initializeProviders`:
a name, a priority, and its transport behaviour.  The transport is
abstracted as a function from the attempt-round index to the outcome of
sending the fixed message through that provider in that round
(`.ok messageId` when the transport resolves, `.error msg` when it
throws/rejects). -/
structure Provider where
  name : String
  priority : Nat
  send : Nat → Except String String

/-- Result object returned by `sendEmail`
(`{success:true, provider, messageId, result}` or
`{success:false, error, attempts}`). -/
inductive SendResult where
  | ok (provider : String) (messageId : String) : SendResult
  | fail (error : String) (attempts : Nat) : SendResult
deriving Repr, DecidableEq

/-- The observable trace of one `sendEmail` call: the returned result,
the number of transport attempts made, and the list of awaited backoff
delays (ms). -/
structure SendTrace where
  result : SendResult
  attemptCount : Nat
  delays : List Nat
deriving Repr, DecidableEq

/-- Method `getNextProvider` of emailService.js: throws a configuration error
when no provider is configured, otherwise returns the provider at the
current index and advances the round-robin cursor.  (This method is not
invoked by `sendEmail`.) -/
def getNextProvider (ps : List Provider) (idx : Nat) : Except String (Provider × Nat) :=
  if h : ps.length = 0 then
    .error "No email providers configured"
  else
    .ok (ps.get ⟨idx % ps.length, Nat.mod_lt _ (Nat.pos_of_ne_zero h)⟩,
         (idx + 1) % ps.length)

/-- The inner `for (const provider of providersToTry)` loop of
`sendEmail` for one attempt round: try each provider in order; on the
first success return it; on an exception record it as `lastError` and
fall through to the next provider.  Returns (success info if any,
number of transport attempts made this round, lastError after the
round). -/
def tryRound (ps : List Provider) (round : Nat) (lastErr : Option String) :
    Option (String × String) × Nat × Option String :=
  match ps with
  | [] => (none, 0, lastErr)
  | p :: rest =>
    match p.send round with
    | .ok mid => (some (p.name, mid), 1, lastErr)
    | .error e =>
      let r := tryRound rest round (some e)
      (r.1, r.2.1 + 1, r.2.2)

/-- The outer `for (let attempt = 0; attempt < maxRetries; attempt++)`
loop of `sendEmail`, iterating over the remaining round indices.  After
a fully failed round that is not the last one, the backoff delay
`1000 * (attempt + 1)` is awaited.  When the rounds are exhausted the
failure result `{success:false, error: lastError?.message || 'Unknown
error', attempts: maxRetries}` is returned. -/
def sendEmailRounds (ps : List Provider) (maxRetries : Nat) :
    List Nat → Option String → Nat → List Nat → SendTrace
  | [], lastErr, attempts, delays =>
    ⟨.fail (lastErr.getD "Unknown error") maxRetries, attempts, delays⟩
  | round :: rest, lastErr, attempts, delays =>
    match tryRound ps round lastErr with
    | (some (pname, mid), n, _) => ⟨.ok pname mid, attempts + n, delays⟩
    | (none, n, le) =>
      let delays' := if rest.isEmpty then delays else delays ++ [1000 * (round + 1)]
      sendEmailRounds ps maxRetries rest le (attempts + n) delays'

/-- Method `sendEmail(emailData, maxRetries)` of emailService.js, with the
email payload abstracted into each provider's transport behaviour. -/
def sendEmail (ps : List Provider) (maxRetries : Nat) : SendTrace :=
  sendEmailRounds ps maxRetries (List.range maxRetries) none 0 []

/-! ## Data model (models/Job.js, models/Campaign.js) -/

/-- A contact as selected by `Contact.find(query).select('_id email name')`
(the `name` field may be absent). -/
structure Contact where
  id : Nat
  email : String
  name : Option String
deriving Repr, DecidableEq

/-- The per-recipient record stored inside a batch, as built in
`createBatches`: `{contactId, email, name: contact.name || ''}`. -/
structure BatchContact where
  contactId : Nat
  email : String
  name : String
deriving Repr, DecidableEq

def Contact.toBatchContact (c : Contact) : BatchContact :=
  ⟨c.id, c.email, c.name.getD ""⟩

/-- The `status` enum of the Job schema. -/
inductive JobStatus where
  | pending | processing | completed | failed
deriving Repr, DecidableEq

/-- The `progress` subdocument of the Job schema. -/
structure Progress where
  total : Nat
  sent : Nat
  failed : Nat
deriving Repr, DecidableEq

/-- One `errorLog` entry of the Job schema. -/
structure ErrorEntry where
  email : String
  error : String
  retryCount : Nat
  resolved : Bool
deriving Repr, DecidableEq

/-- The slice of a Job (batch) document that the pipeline mutates. -/
structure JobRec where
  batchNumber : Nat
  contacts : List BatchContact
  status : JobStatus
  progress : Progress
  errorLog : List ErrorEntry
deriving Repr, DecidableEq

/-- Campaign status values reachable by the pipeline. -/
inductive CampaignStatus where
  | draft | sending | completed | failed
deriving Repr, DecidableEq

/-- The slice of a Campaign document that the pipeline mutates
(`stats` and `status`). -/
structure CampaignRec where
  statsSent : Nat
  statsFailed : Nat
  statsTotal : Nat
  status : CampaignStatus
deriving Repr, DecidableEq

/-! ## BatchPlanner (batchProcessor.js, createBatches) -/

/-- The chunking loop of `createBatches`
(`for (let i = 0; i < totalContacts; i += this.batchSize)`), with the
structural fuel instantiated to the list length by `chunkContacts`.
Each iteration takes `contacts.slice(i, i + batchSize)` and advances
past it. -/
def chunksGo (B : Nat) : Nat → List Contact → List (List Contact)
  | _, [] => []
  | 0, _ :: _ => []
  | fuel + 1, x :: xs => ((x :: xs).take B) :: chunksGo B fuel ((x :: xs).drop B)

/-- The consecutive chunks of at most `B` recipients cut from the
contact list, in input order. -/
def chunkContacts (B : Nat) (l : List Contact) : List (List Contact) :=
  chunksGo B l.length l

/-- A planned batch as returned by `createBatches` (`jobId` dropped;
`batchNumber`, `contacts`, `total`), next to its persisted Job row. -/
structure PlannedBatch where
  batchNumber : Nat
  contacts : List BatchContact
  total : Nat
deriving Repr, DecidableEq

/-- Result object of `createBatches`:
`{totalContacts, totalBatches, batches}` plus the Job documents
persisted by `Job.create` inside the loop. -/
structure CreateBatchesResult where
  totalContacts : Nat
  totalBatches : Nat
  batches : List PlannedBatch
  jobs : List JobRec
deriving Repr, DecidableEq

/-- Method `createBatches` of batchProcessor.js, applied to the contact list
the Mongo query returned (filtering is external).  Throws
`'No contacts found matching the filters'` on an empty list; otherwise
cuts the list into chunks of `batchSize`, assigns batch numbers
`floor(i / batchSize) + 1 = index + 1`, and persists one Job per chunk
with `status:'pending'` and
`progress: {total: batchContacts.length, sent: 0, failed: 0}`. -/
def createBatches (contacts : List Contact) (batchSize : Nat) :
    Except String CreateBatchesResult :=
  if contacts.length = 0 then
    .error "No contacts found matching the filters"
  else
    let chunks := chunkContacts batchSize contacts
    let batches := chunks.enum.map (fun ic =>
      PlannedBatch.mk (ic.1 + 1) (ic.2.map Contact.toBatchContact)
        (ic.2.map Contact.toBatchContact).length)
    let jobs := chunks.enum.map (fun ic =>
      JobRec.mk (ic.1 + 1) (ic.2.map Contact.toBatchContact) .pending
        ⟨(ic.2.map Contact.toBatchContact).length, 0, 0⟩ [])
    .ok ⟨contacts.length, (contacts.length + batchSize - 1) / batchSize, batches, jobs⟩

/-! ## ProgressTracker (queueService.js) -/

/-- Outcome of `emailService.sendEmail` for one recipient, as consumed
by the dispatch workers (`result.success` together with the payload the
workers read from it). -/
inductive SendOutcome where
  | ok (provider : String) (messageId : String) : SendOutcome
  | fail (error : String) : SendOutcome
deriving Repr, DecidableEq

def SendOutcome.isOk : SendOutcome → Bool
  | .ok _ _ => true
  | .fail _ => false

/-- Helper `incProgress(jobId, ...)` of queueService.js, with progress batching
disabled (the default `PROGRESS_BATCHING=false`): a direct
`$inc` of `progress.sent`/`progress.failed`, with a `$set` of
`progress.total` only when the `total` argument is non-zero. -/
def incProgress (j : JobRec) (sent failed total : Nat) : JobRec :=
  { j with progress :=
      { total := if total ≠ 0 then total else j.progress.total
        sent := j.progress.sent + sent
        failed := j.progress.failed + failed } }

/-- The per-outcome completion check of the `send-email` worker
(queueService.js): with `total := job.data.total || progress.total || 0`
and `done := sent + failed ≥ total && total > 0`, when the job is done
and its status is not yet `completed`, conditionally mark it
`completed` (update keyed on `status ≠ 'completed'`), roll the job's
counters into the campaign `stats` (`$set stats.total := total`), and —
when no `pending`/`processing` job of the campaign remains (`other`
counts the remaining others) — mark the campaign `completed`. -/
def completionCheck (j : JobRec) (c : CampaignRec) (totalParam other : Nat) :
    JobRec × CampaignRec :=
  let total := if totalParam ≠ 0 then totalParam else j.progress.total
  if j.progress.sent + j.progress.failed ≥ total ∧ 0 < total ∧ j.status ≠ .completed then
    let j' := { j with status := .completed }
    let c' := { c with
      statsSent := c.statsSent + j.progress.sent
      statsFailed := c.statsFailed + j.progress.failed
      statsTotal := total }
    (j', if other = 0 then { c' with status := .completed } else c')
  else
    (j, c)

/-- One `send-email` job of the durable queue (queueService.js): apply
the recipient's outcome to the batch counters via `incProgress`
(`total` passed as `job.data.total`, the batch's contact count), then
run the completion check.  In this version of the worker a failed
outcome records no `errorLog` entry. -/
def processEmailOutcome (N other : Nat) (oc : SendOutcome)
    (j : JobRec) (c : CampaignRec) : JobRec × CampaignRec :=
  match oc with
  | .ok _ _ => completionCheck (incProgress j 1 0 N) c N other
  | .fail _ => completionCheck (incProgress j 0 1 N) c N other

/-- The durable path for one batch: the `send-batch` worker marks the
job `processing` and enqueues one `send-email` job per contact, each of
which is executed by `processEmailOutcome`.  The trailing progress read
of the `send-batch` worker (after its 200 ms wait) observes the sends
still in flight, so its non-idempotent completion block does not fire;
the terminal state is produced by the per-outcome checks.  Outcomes are
folded in dispatch order; `send` is the per-recipient result of
`emailService.sendEmail`. -/
def processBatchDurable (contacts : List BatchContact)
    (send : BatchContact → SendOutcome) (j0 : JobRec) (c0 : CampaignRec)
    (other : Nat) : JobRec × CampaignRec :=
  let j1 := { j0 with status := JobStatus.processing }
  contacts.foldl
    (fun st ct => processEmailOutcome contacts.length other (send ct) st.1 st.2)
    (j1, c0)

/-! ## Synchronous fallback (batchProcessor.js) -/

/-- One recipient of the synchronous fallback loop: on success
`$inc progress.sent` and `$set progress.total := totalContacts`; on
failure `$inc progress.failed` and `$push` an `errorLog` entry with
`retryCount: 0`. -/
def syncContactStep (N : Nat) (send : BatchContact → SendOutcome)
    (j : JobRec) (ct : BatchContact) : JobRec :=
  match send ct with
  | .ok _ _ =>
    { j with progress :=
        { j.progress with sent := j.progress.sent + 1, total := N } }
  | .fail e =>
    { j with
      progress := { j.progress with failed := j.progress.failed + 1 }
      errorLog := j.errorLog ++ [⟨ct.email, e, 0, false⟩] }

/-- Method `processBatchSynchronously` of batchProcessor.js: mark the job
`processing`, process every contact, then finalize — read the final
counters, mark the job `completed`, `$inc` the campaign `stats` by them
and `$set stats.total := totalContacts`, and when no
`pending`/`processing` job remains (`other` remaining others) mark the
campaign `completed`. -/
def processBatchSynchronously (contacts : List BatchContact)
    (send : BatchContact → SendOutcome) (j0 : JobRec) (c0 : CampaignRec)
    (other : Nat) : JobRec × CampaignRec :=
  let j1 := { j0 with status := JobStatus.processing }
  let j2 := contacts.foldl (syncContactStep contacts.length send) j1
  let j3 := { j2 with status := JobStatus.completed }
  let c1 := { c0 with
    statsSent := c0.statsSent + j2.progress.sent
    statsFailed := c0.statsFailed + j2.progress.failed
    statsTotal := contacts.length }
  (j3, if other = 0 then { c1 with status := CampaignStatus.completed } else c1)

/-- The per-batch body of `processBatches`: try to enqueue the batch on
the durable queue; when `emailQueue.add` throws (`enqueueOk = false`),
fall back to `processBatchSynchronously` for the same batch — the batch
is never dropped. -/
def dispatchBatch (enqueueOk : Bool) (contacts : List BatchContact)
    (send : BatchContact → SendOutcome) (j0 : JobRec) (c0 : CampaignRec)
    (other : Nat) : JobRec × CampaignRec :=
  if enqueueOk then processBatchDurable contacts send j0 c0 other
  else processBatchSynchronously contacts send j0 c0 other

/-! ## RetryCoordinator (retryService.js) -/

/-- The selection filter shared by `retryFailedEmails` and
`scheduleRetries`:
`errorLog.filter(error => error.retryCount < 3 && !error.resolved)`. -/
def selectRetryable (log : List ErrorEntry) : List ErrorEntry :=
  log.filter (fun e => e.retryCount < 3 && !e.resolved)

/-- An entry the retry coordinator must never re-attempt: at or beyond
the retry ceiling of 3, or already resolved. -/
def retryExcluded (e : ErrorEntry) : Prop := 3 ≤ e.retryCount ∨ e.resolved = true

instance (e : ErrorEntry) : Decidable (retryExcluded e) := by
  unfold retryExcluded; infer_instance

/-- The per-entry update of one `retryFailedEmails` pass, keyed on the
entry (`'errorLog.$'` positional update): a selected entry whose resend
succeeds gets `resolved := true` and `retryCount + 1`; a selected entry
whose resend fails again gets `retryCount + 1` and the new error
message; entries outside the selection are untouched. -/
def applyRetryOutcome (ok : ErrorEntry → Bool) (newErr : String)
    (e : ErrorEntry) : ErrorEntry :=
  if e.retryCount < 3 && !e.resolved then
    if ok e then { e with resolved := true, retryCount := e.retryCount + 1 }
    else { e with retryCount := e.retryCount + 1, error := newErr }
  else e

/-- The effect of one `retryFailedEmails` pass on the error log. -/
def runRetryPass (ok : ErrorEntry → Bool) (newErr : String)
    (log : List ErrorEntry) : List ErrorEntry :=
  log.map (applyRetryOutcome ok newErr)

/-- The maximum `retryCount` among a batch's pending (retryable)
entries, as computed by `scheduleRetries`
(`Math.max(...unresolvedErrors.map(e => e.retryCount))`). -/
def maxPendingRetry (log : List ErrorEntry) : Nat :=
  (selectRetryable log).foldl (fun m e => max m e.retryCount) 0

/-- The delay with which `scheduleRetries` re-submits a batch that has
unresolved errors under the ceiling:
`Math.pow(2, maxRetryCount) * 60000`; `none` when the batch has no
pending entry (nothing is re-submitted). -/
def scheduleDelay (log : List ErrorEntry) : Option Nat :=
  if selectRetryable log = [] then none
  else some (2 ^ maxPendingRetry log * 60000)

/-! ## Batch counter state machine (C8)

The operations that touch a batch's `progress` counters, as a small-step
relation over the batch's lifetime.  `pending` counts the recipients of
the batch whose outcome has not yet been recorded, `cacheSent`/
`cacheFailed` model the in-memory progress cache of queueService.js
(`progressCache`), and `unresolved` counts the unresolved `errorLog`
entries. -/

structure BatchSt where
  total : Nat
  sent : Nat
  failed : Nat
  cacheSent : Nat
  cacheFailed : Nat
  pending : Nat
  unresolved : Nat
deriving Repr, DecidableEq

/-- The initial state of a batch of `N` recipients as persisted by
`createBatches`: `progress = {total: N, sent: 0, failed: 0}`, empty
cache and error log, all recipients pending. -/
def initBatchSt (N : Nat) : BatchSt := ⟨N, 0, 0, 0, 0, N, 0⟩

/-- One counter-updating operation of the pipeline on a batch of `N`
recipients:
* `sentDirect` / `failedDirect` — `incProgress` with batching disabled
  for a fresh outcome of the `send-email` worker (`$inc` by one,
  `$set progress.total := N`; the worker records no error-log entry);
* `sentCached` / `failedCached` — the same outcome buffered in the
  progress cache when `PROGRESS_BATCHING` is on;
* `flush` — `flushProgress`: move the cached increments into the
  durable record (and `$set progress.total := N`, cached alongside);
* `sentSync` / `failedSync` — the synchronous fallback's direct updates
  (`failedSync` also pushes an unresolved error-log entry);
* `retryResolved` — `retryFailedEmails` on a succeeding retry:
  `$inc {progress.sent: 1, progress.failed: -1}` and resolve the entry;
* `retryFailedAgain` — a retry that fails again only touches the
  entry's `retryCount`/`error`, not the counters. -/
inductive BatchOp (N : Nat) : BatchSt → BatchSt → Prop
  | sentDirect (s : BatchSt) : 0 < s.pending →
      BatchOp N s { s with sent := s.sent + 1, pending := s.pending - 1, total := N }
  | failedDirect (s : BatchSt) : 0 < s.pending →
      BatchOp N s { s with failed := s.failed + 1, pending := s.pending - 1, total := N }
  | sentCached (s : BatchSt) : 0 < s.pending →
      BatchOp N s { s with cacheSent := s.cacheSent + 1, pending := s.pending - 1 }
  | failedCached (s : BatchSt) : 0 < s.pending →
      BatchOp N s { s with cacheFailed := s.cacheFailed + 1, pending := s.pending - 1 }
  | flush (s : BatchSt) : 0 < s.cacheSent + s.cacheFailed →
      BatchOp N s { s with
        sent := s.sent + s.cacheSent, failed := s.failed + s.cacheFailed
        cacheSent := 0, cacheFailed := 0, total := N }
  | sentSync (s : BatchSt) : 0 < s.pending →
      BatchOp N s { s with sent := s.sent + 1, pending := s.pending - 1, total := N }
  | failedSync (s : BatchSt) : 0 < s.pending →
      BatchOp N s { s with failed := s.failed + 1, pending := s.pending - 1
                           unresolved := s.unresolved + 1 }
  | retryResolved (s : BatchSt) : 0 < s.unresolved →
      BatchOp N s { s with sent := s.sent + 1, failed := s.failed - 1
                           unresolved := s.unresolved - 1 }
  | retryFailedAgain (s : BatchSt) : BatchOp N s s

/-- States reachable from the batch's creation state by pipeline
operations. -/
def BatchReachable (N : Nat) : BatchSt → Prop :=
  Relation.ReflTransGen (BatchOp N) (initBatchSt N)

/-! ## Shared helper lemmas -/

lemma mem_selectRetryable {log : List ErrorEntry} {e : ErrorEntry} :
    e ∈ selectRetryable log ↔ e ∈ log ∧ e.retryCount < 3 ∧ e.resolved = false := by
  simp [selectRetryable, List.mem_filter, and_assoc]

lemma foldl_max_retry_lt (l : List ErrorEntry) (h : ∀ e ∈ l, e.retryCount < 3) :
    ∀ acc : Nat, acc < 3 → l.foldl (fun m e => max m e.retryCount) acc < 3 := by
  induction l with
  | nil => intro acc hacc; simpa using hacc
  | cons a t ih =>
    intro acc hacc
    simp only [List.foldl_cons]
    exact ih (fun e he => h e (List.mem_cons_of_mem _ he)) _
      (max_lt hacc (h a (List.mem_cons_self _ _)))

lemma maxPendingRetry_lt_three (log : List ErrorEntry) : maxPendingRetry log < 3 := by
  unfold maxPendingRetry
  exact foldl_max_retry_lt _ (fun e he => (mem_selectRetryable.mp he).2.1) 0 (by omega)

lemma sendEmailRounds_nil_providers (M : Nat) :
    ∀ (rs : List Nat) (a : Nat) (d : List Nat),
      (sendEmailRounds [] M rs none a d).result = .fail "Unknown error" M ∧
      (sendEmailRounds [] M rs none a d).attemptCount = a := by
  intro rs
  induction rs with
  | nil => intro a d; exact ⟨rfl, rfl⟩
  | cons r rest ih =>
    intro a d
    simpa [sendEmailRounds, tryRound] using ih a _

lemma sendEmailRounds_shape (ps : List Provider) (M : Nat) :
    ∀ (rs : List Nat) (le : Option String) (a : Nat) (d : List Nat),
      (∃ p m, (sendEmailRounds ps M rs le a d).result = .ok p m) ∨
      (∃ e, (sendEmailRounds ps M rs le a d).result = .fail e M) := by
  intro rs
  induction rs with
  | nil => intro le a d; exact .inr ⟨_, rfl⟩
  | cons r rest ih =>
    intro le a d
    rcases htr : tryRound ps r le with ⟨res, n, le'⟩
    cases res with
    | none => simpa [sendEmailRounds, htr] using ih le' (a + n) _
    | some pm =>
      rcases pm with ⟨pname, mid⟩
      exact .inl ⟨pname, mid, by simp [sendEmailRounds, htr]⟩

lemma completionCheck_of_completed (j : JobRec) (c : CampaignRec) (t o : Nat)
    (h : j.status = .completed) : completionCheck j c t o = (j, c) := by
  simp [completionCheck, h]

lemma completionCheck_cases (j : JobRec) (c : CampaignRec) (t o : Nat) :
    completionCheck j c t o = (j, c) ∨
    (completionCheck j c t o).1.status = .completed := by
  simp only [completionCheck]
  split <;> split <;> first | exact .inr rfl | exact .inl rfl

/-! ## Claims -/

/-- C3. The batch completion check is idempotent: a batch whose status
is already `completed` is untouched — no status transition, no campaign
`stats` increment — and re-running the whole check on its own output is
a no-op, the single `completed` transition being guarded by the
conditional update keyed on `status ≠ 'completed'`. -/
theorem completion_check_idempotent (j : JobRec) (c : CampaignRec) (t o : Nat) :
    (j.status = .completed → completionCheck j c t o = (j, c)) ∧
    completionCheck (completionCheck j c t o).1 (completionCheck j c t o).2 t o
      = completionCheck j c t o := by
  refine ⟨completionCheck_of_completed j c t o, ?_⟩
  rcases completionCheck_cases j c t o with h | h
  · rw [h]; exact h
  · rw [completionCheck_of_completed _ _ t o h]

/-- Witness for C3 at a concrete already-completed batch. -/
theorem completion_check_idempotent_witness :
    completionCheck ⟨1, [], .completed, ⟨1, 1, 0⟩, []⟩ ⟨0, 0, 0, .sending⟩ 1 0
      = (⟨1, [], .completed, ⟨1, 1, 0⟩, []⟩, ⟨0, 0, 0, .sending⟩) :=
  (completion_check_idempotent ⟨1, [], .completed, ⟨1, 1, 0⟩, []⟩ ⟨0, 0, 0, .sending⟩ 1 0).1 rfl

/-- C7. The retry coordinator's selection (shared by
`retryFailedEmails` and `scheduleRetries`) only ever picks entries with
`retryCount < 3` and `resolved = false`; an entry at the ceiling or
resolved is never selected; a retry pass leaves every excluded entry
untouched, so it stays in the log and stays excluded; and scanning is a
pure function of the log, so two scans of the same state select (and
hence exclude) the same entries. -/
theorem retry_ceiling_excluded (log : List ErrorEntry) (ok : ErrorEntry → Bool)
    (newErr : String) :
    (∀ e ∈ selectRetryable log, e.retryCount < 3 ∧ e.resolved = false) ∧
    (∀ e, retryExcluded e → e ∉ selectRetryable log) ∧
    (∀ e, retryExcluded e → applyRetryOutcome ok newErr e = e) ∧
    (∀ e ∈ log, retryExcluded e → e ∈ runRetryPass ok newErr log) := by
  refine ⟨fun e he => (mem_selectRetryable.mp he).2, ?_, ?_, ?_⟩
  · intro e hex hmem
    rcases mem_selectRetryable.mp hmem with ⟨-, hlt, hres⟩
    rcases hex with h3 | hr
    · omega
    · rw [hr] at hres; cases hres
  · intro e hex
    have hguard : (e.retryCount < 3 && !e.resolved) = false := by
      rcases hex with h3 | hr
      · simp [Bool.and_eq_false_iff]; omega
      · simp [hr]
    simp [applyRetryOutcome, hguard]
  · intro e he hex
    have heq : applyRetryOutcome ok newErr e = e := by
      have hguard : (e.retryCount < 3 && !e.resolved) = false := by
        rcases hex with h3 | hr
        · simp [Bool.and_eq_false_iff]; omega
        · simp [hr]
      simp [applyRetryOutcome, hguard]
    exact heq ▸ List.mem_map_of_mem _ he

/-- Witness for C7: an entry at the retry ceiling is not selected. -/
theorem retry_ceiling_excluded_witness :
    (⟨"a@b.c", "boom", 3, false⟩ : ErrorEntry)
      ∉ selectRetryable [⟨"a@b.c", "boom", 3, false⟩] :=
  (retry_ceiling_excluded [⟨"a@b.c", "boom", 3, false⟩] (fun _ => true) "e").2.1
    ⟨"a@b.c", "boom", 3, false⟩ (Or.inl (by decide))

/-- C9. For a batch with pending (unresolved, below-ceiling) error-log
entries, the periodic scan re-submits the retry job with delay
`2 ^ (max retryCount among pending entries) * 60000` ms, and because
pending entries always have `retryCount < 3` this delay never exceeds
240000 ms (4 minutes), whatever retry counts appear in the log. -/
theorem schedule_retry_delay (log : List ErrorEntry)
    (h : selectRetryable log ≠ []) :
    scheduleDelay log = some (2 ^ maxPendingRetry log * 60000) ∧
    maxPendingRetry log < 3 ∧
    ∀ d, scheduleDelay log = some d → d ≤ 240000 := by
  refine ⟨by simp [scheduleDelay, h], maxPendingRetry_lt_three log, ?_⟩
  intro d hd
  have hm : maxPendingRetry log < 3 := maxPendingRetry_lt_three log
  have hval : d = 2 ^ maxPendingRetry log * 60000 := by
    rw [scheduleDelay, if_neg h] at hd
    exact (Option.some.injEq _ _ ▸ hd).symm
  have hpow : 2 ^ maxPendingRetry log ≤ 2 ^ 2 :=
    Nat.pow_le_pow_right (by omega) (by omega)
  calc d = 2 ^ maxPendingRetry log * 60000 := hval
    _ ≤ 2 ^ 2 * 60000 := Nat.mul_le_mul_right _ hpow
    _ = 240000 := by norm_num

/-- Witness for C9 at a concrete log with one pending entry of
`retryCount = 1`. -/
theorem schedule_retry_delay_witness :
    scheduleDelay [⟨"a@b.c", "boom", 1, false⟩]
      = some (2 ^ maxPendingRetry [⟨"a@b.c", "boom", 1, false⟩] * 60000) :=
  (schedule_retry_delay [⟨"a@b.c", "boom", 1, false⟩] (by decide)).1

/-- C10. `sendEmail` is total at its interface: whatever the providers'
transports do (every raised transport error being consumed by the
`catch` inside the round loop), it returns either a success result or,
after exhaustion, the failure result carrying `attempts = maxRetries` —
it never propagates a transport exception. -/
theorem send_email_total (ps : List Provider) (M : Nat) (h : 1 ≤ M) :
    (∃ p m, (sendEmail ps M).result = .ok p m) ∨
    (∃ e, (sendEmail ps M).result = .fail e M) :=
  sendEmailRounds_shape ps M (List.range M) none 0 []

/-- Witness for C10 with no providers and one round. -/
theorem send_email_total_witness :
    (∃ p m, (sendEmail [] 1).result = .ok p m) ∨
    (∃ e, (sendEmail [] 1).result = .fail e 1) :=
  send_email_total [] 1 (by decide)

/-- C6 counterexample: with no configured providers, `sendEmail` does
not fail immediately with a configuration error — at `maxRetries = 3`
it awaits the backoff delays (1000 ms and 2000 ms) between its vacuous
rounds and returns the ordinary exhausted-retries failure
`{success:false, error:'Unknown error', attempts:3}`. -/
theorem no_providers_not_immediate :
    (sendEmail [] 3).delays ≠ [] ∧
    (sendEmail [] 3).result = .fail "Unknown error" 3 := by
  decide

/-- C6 (amended). With an empty provider list, `sendEmail` makes zero
transport attempts but still iterates all its rounds: it returns the
ordinary failure `{success:false, error:'Unknown error',
attempts:maxRetries}` after awaiting the inter-round backoff delays
(at `maxRetries = 3`, 1000 ms then 2000 ms); the configuration error
`'No email providers configured'` is thrown only by `getNextProvider`,
which `sendEmail` never calls. -/
theorem no_providers_generic_failure :
    (∀ M, (sendEmail [] M).result = .fail "Unknown error" M ∧
          (sendEmail [] M).attemptCount = 0) ∧
    sendEmail [] 3 = ⟨.fail "Unknown error" 3, 0, [1000, 2000]⟩ ∧
    getNextProvider [] 0 = .error "No email providers configured" :=
  ⟨fun M => sendEmailRounds_nil_providers M (List.range M) 0 [],
   by decide, rfl⟩

lemma tryRound_cons_error {p : Provider} {rest : List Provider} {r : Nat}
    {le : Option String} {e : String} (he : p.send r = .error e) :
    tryRound (p :: rest) r le
      = ((tryRound rest r (some e)).1, (tryRound rest r (some e)).2.1 + 1,
         (tryRound rest r (some e)).2.2) := by
  simp [tryRound, he]

lemma tryRound_cons_ok {p : Provider} {rest : List Provider} {r : Nat}
    {le : Option String} {mid : String} (he : p.send r = .ok mid) :
    tryRound (p :: rest) r le = (some (p.name, mid), 1, le) := by
  simp [tryRound, he]

lemma tryRound_allFail_ex (r : Nat) :
    ∀ (ps : List Provider) (le : Option String),
      (∀ p ∈ ps, ∃ e, p.send r = .error e) →
      ∃ le', tryRound ps r le = (none, ps.length, le') := by
  intro ps
  induction ps with
  | nil => intro le _; exact ⟨le, rfl⟩
  | cons x rest ih =>
    intro le h
    obtain ⟨e, he⟩ := h x (List.mem_cons_self _ _)
    obtain ⟨le', hle'⟩ := ih (some e) (fun p hp => h p (List.mem_cons_of_mem _ hp))
    exact ⟨le', by rw [tryRound_cons_error he, hle']; simp⟩

lemma tryRound_allFail_last (r : Nat) :
    ∀ (ps : List Provider) (le : Option String) (q : Provider),
      ps.getLast? = some q →
      (∀ p ∈ ps, ∃ e, p.send r = .error e) →
      ∃ e, q.send r = .error e ∧ tryRound ps r le = (none, ps.length, some e) := by
  intro ps
  induction ps with
  | nil => intro le q hq; cases hq
  | cons x rest ih =>
    intro le q hq h
    cases rest with
    | nil =>
      have hx : q = x := by simpa using hq.symm
      obtain ⟨e, he⟩ := h x (List.mem_cons_self _ _)
      subst hx
      exact ⟨e, he, by rw [tryRound_cons_error he]; rfl⟩
    | cons y t =>
      obtain ⟨e0, he0⟩ := h x (List.mem_cons_self _ _)
      have hq' : (y :: t).getLast? = some q := by
        rwa [List.getLast?_cons_cons] at hq
      obtain ⟨e, hqe, htr⟩ := ih (some e0) q hq'
        (fun p hp => h p (List.mem_cons_of_mem _ hp))
      refine ⟨e, hqe, ?_⟩
      rw [tryRound_cons_error he0, htr]
      simp

lemma tryRound_firstOk (r : Nat) (q : Provider) (mid : String)
    (post : List Provider) (hq : q.send r = .ok mid) :
    ∀ (pre : List Provider) (le : Option String),
      (∀ p ∈ pre, ∃ e, p.send r = .error e) →
      ∃ le', tryRound (pre ++ q :: post) r le
        = (some (q.name, mid), pre.length + 1, le') := by
  intro pre
  induction pre with
  | nil => intro le _; exact ⟨le, by rw [List.nil_append, tryRound_cons_ok hq]; simp⟩
  | cons x rest ih =>
    intro le h
    obtain ⟨e, he⟩ := h x (List.mem_cons_self _ _)
    obtain ⟨le', hle'⟩ := ih (some e) (fun p hp => h p (List.mem_cons_of_mem _ hp))
    refine ⟨le', ?_⟩
    rw [List.cons_append, tryRound_cons_error he, hle']
    simp

lemma sendEmailRounds_skip (ps : List Provider) (M : Nat) :
    ∀ (rs1 rs2 : List Nat) (le : Option String) (a : Nat) (d : List Nat),
      rs2 ≠ [] →
      (∀ i ∈ rs1, ∀ p ∈ ps, ∃ e, p.send i = .error e) →
      ∃ le', sendEmailRounds ps M (rs1 ++ rs2) le a d
        = sendEmailRounds ps M rs2 le' (a + rs1.length * ps.length)
            (d ++ rs1.map (fun i => 1000 * (i + 1))) := by
  intro rs1
  induction rs1 with
  | nil => intro rs2 le a d _ _; exact ⟨le, by simp⟩
  | cons i rest ih =>
    intro rs2 le a d h2 hfail
    obtain ⟨le1, h1⟩ := tryRound_allFail_ex i ps le (hfail i (List.mem_cons_self _ _))
    obtain ⟨le', hrec⟩ := ih rs2 le1 (a + ps.length) (d ++ [1000 * (i + 1)]) h2
      (fun i' hi' => hfail i' (List.mem_cons_of_mem _ hi'))
    refine ⟨le', ?_⟩
    have hne : (rest ++ rs2).isEmpty = false := by
      rw [List.isEmpty_eq_false]
      intro hcon
      exact h2 (List.append_eq_nil.mp hcon).2
    have step : sendEmailRounds ps M ((i :: rest) ++ rs2) le a d
        = sendEmailRounds ps M (rest ++ rs2) le1 (a + ps.length)
            (d ++ [1000 * (i + 1)]) := by
      simp [sendEmailRounds, h1, hne]
    rw [step, hrec]
    have harith : a + ps.length + rest.length * ps.length
        = a + (i :: rest).length * ps.length := by
      simp [List.length_cons]; ring
    have hlist : (d ++ [1000 * (i + 1)]) ++ rest.map (fun i => 1000 * (i + 1))
        = d ++ (i :: rest).map (fun i => 1000 * (i + 1)) := by
      simp
    rw [harith, hlist]

/-- C4. With a non-empty provider list whose every transport fails in
every round, `sendEmail` with `maxRetries = 3` makes exactly
`3 × providers` transport attempts, awaits the two inter-round backoff
delays, and returns the failure result carrying the last provider's
last-round error and `attempts = 3` (the number of attempt rounds) —
it never loops beyond the round cap. -/
theorem all_providers_fail_bounded (ps : List Provider) (q : Provider)
    (hlast : ps.getLast? = some q)
    (hfail : ∀ p ∈ ps, ∀ r, ∃ e, p.send r = .error e) :
    ∃ e, q.send 2 = .error e ∧
      sendEmail ps 3 = ⟨.fail e 3, 3 * ps.length, [1000, 2000]⟩ := by
  obtain ⟨le0, h0⟩ := tryRound_allFail_ex 0 ps none (fun p hp => hfail p hp 0)
  obtain ⟨le1, h1⟩ := tryRound_allFail_ex 1 ps le0 (fun p hp => hfail p hp 1)
  obtain ⟨e2, hq2, h2⟩ := tryRound_allFail_last 2 ps le1 q hlast
    (fun p hp => hfail p hp 2)
  refine ⟨e2, hq2, ?_⟩
  have hrange : List.range 3 = [0, 1, 2] := rfl
  unfold sendEmail
  rw [hrange]
  simp [sendEmailRounds, h0, h1, h2, SendTrace.mk.injEq]
  omega

/-- Witness for C4: one always-failing provider, three rounds, three
attempts. -/
theorem all_providers_fail_bounded_witness :
    sendEmail [⟨"mailgun", 1, fun _ => Except.error "timeout"⟩] 3
      = ⟨.fail "timeout" 3, 3 * 1, [1000, 2000]⟩ := by
  obtain ⟨e, he, hs⟩ := all_providers_fail_bounded
    [⟨"mailgun", 1, fun _ => Except.error "timeout"⟩]
    ⟨"mailgun", 1, fun _ => Except.error "timeout"⟩ rfl
    (fun p hp r => ⟨"timeout", by rw [List.mem_singleton.mp hp]⟩)
  have he' : e = "timeout" := by simpa using he.symm
  rw [he'] at hs
  simpa using hs

/-- C5. When the providers in list order are some failing prefix
followed by a provider `q` that succeeds in round `r` — every earlier
round having failed entirely — `sendEmail` returns success attributed
to `q` in that round: the attempt count stops at `q` (no later provider
is tried for this message) and only the backoff delays of the earlier
rounds were awaited (no further retry rounds are consumed). -/
theorem first_success_short_circuits (pre post : List Provider) (q : Provider)
    (M r : Nat) (mid : String)
    (hrM : r < M)
    (hbefore : ∀ i, i < r → ∀ p ∈ pre ++ q :: post, ∃ e, p.send i = .error e)
    (hpre : ∀ p ∈ pre, ∃ e, p.send r = .error e)
    (hq : q.send r = .ok mid) :
    sendEmail (pre ++ q :: post) M =
      ⟨.ok q.name mid, r * (pre ++ q :: post).length + (pre.length + 1),
       (List.range r).map (fun i => 1000 * (i + 1))⟩ := by
  have hM : M = r + (M - r) := by omega
  obtain ⟨k, hk⟩ : ∃ k, M - r = k + 1 := ⟨M - r - 1, by omega⟩
  have hsplit : List.range M
      = List.range r ++ r :: (List.range k).map (fun x => r + (x + 1)) := by
    rw [hM, List.range_add, hk, List.range_succ_eq_map]
    simp [List.map_map, Function.comp_def, Nat.succ_eq_add_one]
  obtain ⟨le', hskip⟩ := sendEmailRounds_skip (pre ++ q :: post) M (List.range r)
    (r :: (List.range k).map (fun x => r + (x + 1))) none 0 []
    (List.cons_ne_nil _ _)
    (fun i hi p hp => hbefore i (List.mem_range.mp hi) p hp)
  obtain ⟨le2, hok⟩ := tryRound_firstOk r q mid post hq pre le' hpre
  unfold sendEmail
  rw [hsplit, hskip]
  simp [sendEmailRounds, hok, List.length_range, SendTrace.mk.injEq]

/-- Witness for C5: providers `[A(fails), B(succeeds)]`, success on the
first round after two attempts, no backoff awaited. -/
theorem first_success_short_circuits_witness :
    sendEmail [⟨"A", 1, fun _ => Except.error "down"⟩,
               ⟨"B", 2, fun _ => Except.ok "m1"⟩] 3
      = ⟨.ok "B" "m1", 2, []⟩ := by
  have h := first_success_short_circuits
    [⟨"A", 1, fun _ => Except.error "down"⟩] []
    ⟨"B", 2, fun _ => Except.ok "m1"⟩ 3 0 "m1" (by omega)
    (fun i hi => absurd hi (by omega))
    (fun p hp => ⟨"down", by rw [List.mem_singleton.mp hp]⟩)
    rfl
  simpa using h

/-- The inductive invariant of the batch counter system: the persisted
`total` equals the batch's recipient count, every recipient is
accounted exactly once across the durable counters, the cache, and the
still-pending set, and unresolved error-log entries never outnumber the
recorded failures. -/
def batchInv (N : Nat) (s : BatchSt) : Prop :=
  s.total = N ∧
  s.sent + s.failed + s.cacheSent + s.cacheFailed + s.pending = N ∧
  s.unresolved ≤ s.failed

lemma batchInv_init (N : Nat) : batchInv N (initBatchSt N) := by
  simp [batchInv, initBatchSt]

lemma batchInv_step {N : Nat} {s s' : BatchSt} (hinv : batchInv N s)
    (hstep : BatchOp N s s') : batchInv N s' := by
  obtain ⟨ht, hsum, hunres⟩ := hinv
  cases hstep <;> simp_all [batchInv] <;> omega

lemma batchInv_reachable {N : Nat} {s : BatchSt} (h : BatchReachable N s) :
    batchInv N s := by
  induction h with
  | refl => exact batchInv_init N
  | tail _ hstep ih => exact batchInv_step ih hstep

/-- C8. In every state a batch can reach through the pipeline's
counter-updating operations (per-recipient outcome recording, direct or
through the progress cache, cache flushes, and retry resolution moving
one unit from `failed` to `sent`), the invariant
`progress.sent + progress.failed ≤ progress.total` holds on the durable
record, and `progress.total` still equals the recipient count fixed at
batch creation. -/
theorem batch_progress_invariant (N : Nat) (s : BatchSt)
    (h : BatchReachable N s) :
    s.sent + s.failed ≤ s.total ∧ s.total = N := by
  obtain ⟨ht, hsum, -⟩ := batchInv_reachable h
  exact ⟨by omega, ht⟩

/-- Witness for C8 at the creation state of a five-recipient batch. -/
theorem batch_progress_invariant_witness :
    (initBatchSt 5).sent + (initBatchSt 5).failed ≤ (initBatchSt 5).total ∧
    (initBatchSt 5).total = 5 :=
  batch_progress_invariant 5 (initBatchSt 5) Relation.ReflTransGen.refl

lemma chunksGo_flatten (B : Nat) (hB : 0 < B) :
    ∀ (fuel : Nat) (l : List Contact), l.length ≤ fuel →
      (chunksGo B fuel l).flatten = l := by
  intro fuel
  induction fuel with
  | zero =>
    intro l hl
    rw [List.length_eq_zero.mp (Nat.le_zero.mp hl)]
    rfl
  | succ fuel ih =>
    intro l hl
    cases l with
    | nil => rfl
    | cons x xs =>
      have hdrop : ((x :: xs).drop B).length ≤ fuel := by
        rw [List.length_drop]
        simp only [List.length_cons] at hl ⊢
        omega
      simp only [chunksGo, List.flatten_cons]
      rw [ih _ hdrop, List.take_append_drop]

lemma chunksGo_sizes (B : Nat) (hB : 0 < B) :
    ∀ (fuel : Nat) (l : List Contact), ∀ c ∈ chunksGo B fuel l,
      c.length ≤ B ∧ c ≠ [] := by
  intro fuel
  induction fuel with
  | zero => intro l c hc; cases l <;> simp [chunksGo] at hc
  | succ fuel ih =>
    intro l c hc
    cases l with
    | nil => simp [chunksGo] at hc
    | cons x xs =>
      simp only [chunksGo, List.mem_cons] at hc
      rcases hc with rfl | hc
      · refine ⟨?_, ?_⟩
        · rw [List.length_take]; exact min_le_left _ _
        · obtain ⟨b, rfl⟩ : ∃ b, B = b + 1 := ⟨B - 1, by omega⟩
          rw [List.take_succ_cons]
          exact List.cons_ne_nil _ _
      · exact ih _ c hc

lemma chunksGo_count (B : Nat) (hB : 0 < B) :
    ∀ (fuel : Nat) (l : List Contact), l.length ≤ fuel →
      (chunksGo B fuel l).length = (l.length + B - 1) / B := by
  intro fuel
  induction fuel with
  | zero =>
    intro l hl
    rw [List.length_eq_zero.mp (Nat.le_zero.mp hl)]
    simpa [chunksGo] using (Nat.div_eq_of_lt (by omega)).symm
  | succ fuel ih =>
    intro l hl
    cases l with
    | nil => simpa [chunksGo] using (Nat.div_eq_of_lt (by omega)).symm
    | cons x xs =>
      by_cases hle : (x :: xs).length ≤ B
      · have hdrop : (x :: xs).drop B = [] := List.drop_eq_nil_of_le hle
        have hlhs : (chunksGo B (fuel + 1) (x :: xs)).length = 1 := by
          simp [chunksGo, hdrop]
        rw [hlhs]
        have h1 : (x :: xs).length + B - 1 = ((x :: xs).length - 1) + B := by
          simp only [List.length_cons]; omega
        rw [h1, Nat.add_div_right _ hB,
            Nat.div_eq_of_lt (show (x :: xs).length - 1 < B by
              simp only [List.length_cons] at hle ⊢; omega)]
      · push_neg at hle
        have hdroplen : ((x :: xs).drop B).length ≤ fuel := by
          rw [List.length_drop]
          simp only [List.length_cons] at hl ⊢
          omega
        have hrec := ih _ hdroplen
        rw [List.length_drop] at hrec
        have hlhs : (chunksGo B (fuel + 1) (x :: xs)).length
            = (chunksGo B fuel ((x :: xs).drop B)).length + 1 := by
          simp [chunksGo]
        rw [hlhs, hrec]
        have h2 : (x :: xs).length + B - 1
            = (((x :: xs).length - B) + B - 1) + B := by
          simp only [List.length_cons] at hle ⊢; omega
        rw [h2, Nat.add_div_right _ hB]

lemma chunkContacts_flatten (B : Nat) (hB : 0 < B) (l : List Contact) :
    (chunkContacts B l).flatten = l :=
  chunksGo_flatten B hB l.length l le_rfl

lemma chunkContacts_sizes (B : Nat) (hB : 0 < B) (l : List Contact) :
    ∀ c ∈ chunkContacts B l, c.length ≤ B ∧ c ≠ [] :=
  chunksGo_sizes B hB l.length l

lemma chunkContacts_count (B : Nat) (hB : 0 < B) (l : List Contact) :
    (chunkContacts B l).length = (l.length + B - 1) / B :=
  chunksGo_count B hB l.length l le_rfl

lemma snd_mem_of_mem_enum {α : Type} {l : List α} {p : Nat × α}
    (h : p ∈ l.enum) : p.2 ∈ l := by
  rw [List.enum_eq_zip_range] at h
  rcases p with ⟨i, a⟩
  exact (List.of_mem_zip h).2

/-- C1. For every non-empty contact list and positive batch size `B`,
`createBatches` succeeds and produces exactly `ceil(N/B)` batches: the
batch sizes sum to `N`, no batch holds more than `B` recipients, the
recipients are assigned in input order into consecutive chunks, the
batch numbers are exactly `1..ceil(N/B)` (strictly increasing, no
gaps), and every persisted Job row carries `status = pending` and
`progress = {total: batch size, sent: 0, failed: 0}`. -/
theorem create_batches_plan (contacts : List Contact) (B : Nat)
    (hB : 0 < B) (hne : contacts ≠ []) :
    ∃ res, createBatches contacts B = .ok res ∧
      res.totalContacts = contacts.length ∧
      res.totalBatches = (contacts.length + B - 1) / B ∧
      res.jobs.length = res.totalBatches ∧
      res.batches.length = res.totalBatches ∧
      (res.jobs.map (fun j => j.contacts.length)).sum = contacts.length ∧
      (∀ j ∈ res.jobs, j.contacts.length ≤ B) ∧
      (res.jobs.map (fun j => j.contacts)).flatten
        = contacts.map Contact.toBatchContact ∧
      res.jobs.map (fun j => j.batchNumber) = List.range' 1 res.totalBatches ∧
      (∀ j ∈ res.jobs, j.status = .pending ∧
        j.progress = ⟨j.contacts.length, 0, 0⟩) ∧
      res.batches.map (fun b => (b.batchNumber, b.contacts, b.total))
        = res.jobs.map (fun j => (j.batchNumber, j.contacts, j.contacts.length)) := by
  have hlen0 : ¬ contacts.length = 0 := by
    simpa [List.length_eq_zero] using hne
  have hok : createBatches contacts B = .ok
      ⟨contacts.length, (contacts.length + B - 1) / B,
       (chunkContacts B contacts).enum.map (fun ic =>
         PlannedBatch.mk (ic.1 + 1) (ic.2.map Contact.toBatchContact)
           (ic.2.map Contact.toBatchContact).length),
       (chunkContacts B contacts).enum.map (fun ic =>
         JobRec.mk (ic.1 + 1) (ic.2.map Contact.toBatchContact) .pending
           ⟨(ic.2.map Contact.toBatchContact).length, 0, 0⟩ [])⟩ := by
    rw [createBatches, if_neg hlen0]
  refine ⟨_, hok, rfl, rfl, ?_, ?_, ?_, ?_, ?_, ?_, ?_, ?_⟩
  · simp [List.enum_length, chunkContacts_count B hB]
  · simp [List.enum_length, chunkContacts_count B hB]
  · -- sizes sum to N
    have h1 : ((chunkContacts B contacts).enum.map (fun ic =>
        JobRec.mk (ic.1 + 1) (ic.2.map Contact.toBatchContact) .pending
          ⟨(ic.2.map Contact.toBatchContact).length, 0, 0⟩ [])).map
            (fun j => j.contacts.length)
        = (chunkContacts B contacts).map (fun c => c.length) := by
      rw [List.map_map]
      have h2 : ((chunkContacts B contacts).enum.map
            (fun ic : Nat × List Contact => ic.2)).map (fun c => c.length)
          = (chunkContacts B contacts).map (fun c => c.length) := by
        rw [List.enum_map_snd]
      rw [← h2, List.map_map]
      exact List.map_congr_left (fun a _ => by simp)
    rw [h1, ← List.length_flatten, chunkContacts_flatten B hB]
  · -- no batch exceeds B
    intro j hj
    rcases List.mem_map.mp hj with ⟨ic, hic, rfl⟩
    have hmem : ic.2 ∈ chunkContacts B contacts := snd_mem_of_mem_enum hic
    simpa using (chunkContacts_sizes B hB contacts ic.2 hmem).1
  · -- input order into consecutive chunks
    have h1 : ((chunkContacts B contacts).enum.map (fun ic =>
        JobRec.mk (ic.1 + 1) (ic.2.map Contact.toBatchContact) .pending
          ⟨(ic.2.map Contact.toBatchContact).length, 0, 0⟩ [])).map
            (fun j => j.contacts)
        = (chunkContacts B contacts).map (fun c => c.map Contact.toBatchContact) := by
      rw [List.map_map]
      have h2 : ((chunkContacts B contacts).enum.map
            (fun ic : Nat × List Contact => ic.2)).map
              (fun c => c.map Contact.toBatchContact)
          = (chunkContacts B contacts).map (fun c => c.map Contact.toBatchContact) := by
        rw [List.enum_map_snd]
      rw [← h2, List.map_map]
      exact List.map_congr_left (fun a _ => by simp)
    rw [h1, ← List.map_flatten, chunkContacts_flatten B hB]
  · -- batch numbers are 1..K
    have h1 : ((chunkContacts B contacts).enum.map (fun ic =>
        JobRec.mk (ic.1 + 1) (ic.2.map Contact.toBatchContact) .pending
          ⟨(ic.2.map Contact.toBatchContact).length, 0, 0⟩ [])).map
            (fun j => j.batchNumber)
        = ((chunkContacts B contacts).enum.map
            (fun ic : Nat × List Contact => ic.1)).map (fun i => i + 1) := by
      rw [List.map_map, List.map_map]
      exact List.map_congr_left (fun a _ => by simp)
    rw [h1, List.enum_map_fst, List.range'_eq_map_range]
    have h3 : (chunkContacts B contacts).length = (contacts.length + B - 1) / B :=
      chunkContacts_count B hB contacts
    rw [h3]
    exact List.map_congr_left (fun a _ => by omega)
  · -- persisted rows
    intro j hj
    rcases List.mem_map.mp hj with ⟨ic, _, rfl⟩
    exact ⟨rfl, by simp⟩
  · -- returned batches match persisted jobs
    rw [List.map_map, List.map_map]
    exact List.map_congr_left (fun a _ => by simp)

/-- Witness for C1: five contacts, batch size two, three batches. -/
theorem create_batches_plan_witness :
    ∃ res, createBatches
      [⟨1, "a", none⟩, ⟨2, "b", some "B"⟩, ⟨3, "c", none⟩,
       ⟨4, "d", none⟩, ⟨5, "e", none⟩] 2 = .ok res ∧
      res.totalContacts = 5 ∧ res.totalBatches = 3 ∧
      res.jobs.map (fun j => j.batchNumber) = [1, 2, 3] := by
  obtain ⟨res, hok, h1, h2, -, -, -, -, -, hnum, -, -⟩ :=
    create_batches_plan
      [⟨1, "a", none⟩, ⟨2, "b", some "B"⟩, ⟨3, "c", none⟩,
       ⟨4, "d", none⟩, ⟨5, "e", none⟩] 2 (by decide) (by decide)
  refine ⟨res, hok, by rw [h1]; rfl, by rw [h2]; rfl, ?_⟩
  rw [hnum, h2]
  rfl

attribute [ext] Progress JobRec CampaignRec

lemma syncFold_progress (N : Nat) (send : BatchContact → SendOutcome) :
    ∀ (cts : List BatchContact) (j : JobRec), j.progress.total = N →
      (cts.foldl (syncContactStep N send) j).progress
        = ⟨N, j.progress.sent + cts.countP (fun ct => (send ct).isOk),
             j.progress.failed + cts.countP (fun ct => !(send ct).isOk)⟩ ∧
      (cts.foldl (syncContactStep N send) j).status = j.status := by
  intro cts
  induction cts with
  | nil =>
    intro j hj
    refine ⟨?_, rfl⟩
    ext <;> simp [hj]
  | cons ct rest ih =>
    intro j hj
    have hstep : (syncContactStep N send j ct).progress.total = N := by
      cases hoc : send ct <;> simp [syncContactStep, hoc, hj]
    obtain ⟨hprog, hstat⟩ := ih (syncContactStep N send j ct) hstep
    rw [List.foldl_cons]
    refine ⟨?_, ?_⟩
    · rw [hprog]
      cases hoc : send ct <;>
        ext <;>
          simp [syncContactStep, hoc, List.countP_cons, SendOutcome.isOk] <;> omega
    · rw [hstat]
      cases hoc : send ct <;> simp [syncContactStep, hoc]

lemma processEmailOutcome_mid (N other : Nat) (oc : SendOutcome)
    (j : JobRec) (c : CampaignRec) (hN : ¬ N = 0)
    (hlt : j.progress.sent + j.progress.failed + 1 < N) :
    processEmailOutcome N other oc j c
      = ({ j with progress :=
            ⟨N, j.progress.sent + (if oc.isOk then 1 else 0),
                j.progress.failed + (if oc.isOk then 0 else 1)⟩ }, c) := by
  cases oc with
  | ok p m =>
    simp only [processEmailOutcome, incProgress, completionCheck, SendOutcome.isOk]
    rw [if_pos hN, if_pos hN, if_neg (by simp; omega)]
    simp
  | fail e =>
    simp only [processEmailOutcome, incProgress, completionCheck, SendOutcome.isOk]
    rw [if_pos hN, if_pos hN, if_neg (by simp; omega)]
    simp

lemma processEmailOutcome_last (N other : Nat) (oc : SendOutcome)
    (j : JobRec) (c : CampaignRec) (hN : ¬ N = 0)
    (hst : j.status = .processing)
    (hge : N ≤ j.progress.sent + j.progress.failed + 1) :
    processEmailOutcome N other oc j c
      = ({ j with
            status := .completed
            progress :=
              ⟨N, j.progress.sent + (if oc.isOk then 1 else 0),
                  j.progress.failed + (if oc.isOk then 0 else 1)⟩ },
         { c with
            statsSent := c.statsSent
              + (j.progress.sent + (if oc.isOk then 1 else 0))
            statsFailed := c.statsFailed
              + (j.progress.failed + (if oc.isOk then 0 else 1))
            statsTotal := N
            status := if other = 0 then .completed else c.status }) := by
  have hNpos : 0 < N := by omega
  cases oc with
  | ok p m =>
    simp only [processEmailOutcome, incProgress, completionCheck, SendOutcome.isOk]
    rw [if_pos hN, if_pos hN,
        if_pos (show _ ∧ _ ∧ _ from ⟨by simp; omega, hNpos, by simp [hst]⟩)]
    rcases Decidable.em (other = 0) with h0 | h0 <;> simp [h0]
  | fail e =>
    simp only [processEmailOutcome, incProgress, completionCheck, SendOutcome.isOk]
    rw [if_pos hN, if_pos hN,
        if_pos (show _ ∧ _ ∧ _ from ⟨by simp; omega, hNpos, by simp [hst]⟩)]
    rcases Decidable.em (other = 0) with h0 | h0 <;> simp [h0]

lemma durFold_run (send : BatchContact → SendOutcome) (c0 : CampaignRec)
    (other N : Nat) :
    ∀ (cts : List BatchContact) (j : JobRec),
      cts ≠ [] → j.status = .processing → j.progress.total = N →
      j.progress.sent + j.progress.failed + cts.length = N →
      cts.foldl (fun st ct => processEmailOutcome N other (send ct) st.1 st.2) (j, c0)
        = ({ j with
              status := .completed
              progress :=
                ⟨N, j.progress.sent + cts.countP (fun ct => (send ct).isOk),
                    j.progress.failed + cts.countP (fun ct => !(send ct).isOk)⟩ },
           { c0 with
              statsSent := c0.statsSent
                + (j.progress.sent + cts.countP (fun ct => (send ct).isOk))
              statsFailed := c0.statsFailed
                + (j.progress.failed + cts.countP (fun ct => !(send ct).isOk))
              statsTotal := N
              status := if other = 0 then .completed else c0.status }) := by
  intro cts
  induction cts with
  | nil => intro j h; cases h rfl
  | cons ct rest ih =>
    intro j hne hst htot hsum
    have hN0 : ¬ N = 0 := by simp only [List.length_cons] at hsum; omega
    have hbeta : (ct :: rest).foldl
          (fun st ct => processEmailOutcome N other (send ct) st.1 st.2) (j, c0)
        = rest.foldl
            (fun st ct => processEmailOutcome N other (send ct) st.1 st.2)
            (processEmailOutcome N other (send ct) j c0) := rfl
    rcases Decidable.em (rest = []) with hrest | hrest
    · subst hrest
      have hge : N ≤ j.progress.sent + j.progress.failed + 1 := by
        simp only [List.length_cons, List.length_nil] at hsum; omega
      rw [hbeta, List.foldl_nil, processEmailOutcome_last N other (send ct) j c0 hN0 hst hge]
      cases hoc : send ct <;>
        simp only [Prod.mk.injEq] <;>
          refine ⟨?_, ?_⟩ <;>
            ext <;>
              simp [SendOutcome.isOk, List.countP_cons, hoc]
    · have hrlen : 0 < rest.length := by
        cases rest with
        | nil => exact absurd rfl hrest
        | cons a t => simp
      have hlt : j.progress.sent + j.progress.failed + 1 < N := by
        simp only [List.length_cons] at hsum; omega
      rw [hbeta, processEmailOutcome_mid N other (send ct) j c0 hN0 hlt]
      have hih := ih { j with progress :=
          ⟨N, j.progress.sent + (if (send ct).isOk then 1 else 0),
              j.progress.failed + (if (send ct).isOk then 0 else 1)⟩ }
        hrest hst rfl
        (by simp only [List.length_cons] at hsum
            cases hoc : send ct <;> simp [SendOutcome.isOk] <;> omega)
      rw [hih]
      cases hoc : send ct <;>
        simp only [Prod.mk.injEq] <;>
          refine ⟨?_, ?_⟩ <;>
            ext <;>
              simp [SendOutcome.isOk, List.countP_cons, hoc] <;> omega

lemma countP_isOk_add_not (send : BatchContact → SendOutcome)
    (l : List BatchContact) :
    l.countP (fun ct => (send ct).isOk) + l.countP (fun ct => !(send ct).isOk)
      = l.length := by
  induction l with
  | nil => rfl
  | cons a t ih =>
    cases h : (send a).isOk <;> simp [List.countP_cons, h] <;> omega

/-- C2. A batch whose enqueue on the durable queue throws is not
dropped: `processBatches` hands it to the synchronous fallback
executor, and the fallback reaches the same terminal state as the
durable path does on the same per-recipient outcomes — identical final
`progress`, both ending with status `completed` and
`sent + failed = total`, and identical Campaign updates (same `stats`
increments, same campaign-completion transition). -/
theorem fallback_matches_durable (contacts : List BatchContact)
    (send : BatchContact → SendOutcome) (j0 : JobRec) (c0 : CampaignRec)
    (other : Nat) (hne : contacts ≠ [])
    (hprog : j0.progress = ⟨contacts.length, 0, 0⟩) :
    (processBatchDurable contacts send j0 c0 other).1.progress
      = (processBatchSynchronously contacts send j0 c0 other).1.progress ∧
    (processBatchDurable contacts send j0 c0 other).1.status = .completed ∧
    (processBatchSynchronously contacts send j0 c0 other).1.status = .completed ∧
    (processBatchSynchronously contacts send j0 c0 other).1.progress.sent
        + (processBatchSynchronously contacts send j0 c0 other).1.progress.failed
      = (processBatchSynchronously contacts send j0 c0 other).1.progress.total ∧
    (processBatchDurable contacts send j0 c0 other).2
      = (processBatchSynchronously contacts send j0 c0 other).2 ∧
    dispatchBatch false contacts send j0 c0 other
      = processBatchSynchronously contacts send j0 c0 other := by
  have htot1 : ({ j0 with status := JobStatus.processing } : JobRec).progress.total
      = contacts.length := by simp [hprog]
  have hdur := durFold_run send c0 other contacts.length contacts
    { j0 with status := JobStatus.processing } hne rfl htot1 (by simp [hprog])
  have hsyncp := syncFold_progress contacts.length send contacts
    { j0 with status := JobStatus.processing } htot1
  have hD : processBatchDurable contacts send j0 c0 other
      = contacts.foldl
          (fun st ct => processEmailOutcome contacts.length other (send ct) st.1 st.2)
          ({ j0 with status := JobStatus.processing }, c0) := rfl
  have hsprog : (processBatchSynchronously contacts send j0 c0 other).1.progress
      = ⟨contacts.length,
         j0.progress.sent + contacts.countP (fun ct => (send ct).isOk),
         j0.progress.failed + contacts.countP (fun ct => !(send ct).isOk)⟩ :=
    hsyncp.1
  have hps : j0.progress.sent = 0 := by rw [hprog]
  have hpf : j0.progress.failed = 0 := by rw [hprog]
  refine ⟨?_, ?_, rfl, ?_, ?_, ?_⟩
  · rw [hD, hdur, hsprog]
  · rw [hD, hdur]
  · rw [hsprog]
    simp only [hps, hpf, Nat.zero_add]
    exact countP_isOk_add_not send contacts
  · rw [hD, hdur]
    have hs2 : (processBatchSynchronously contacts send j0 c0 other).2
        = (if other = 0
            then { statsSent := c0.statsSent
                    + (contacts.foldl (syncContactStep contacts.length send)
                        { j0 with status := JobStatus.processing }).progress.sent
                   statsFailed := c0.statsFailed
                    + (contacts.foldl (syncContactStep contacts.length send)
                        { j0 with status := JobStatus.processing }).progress.failed
                   statsTotal := contacts.length
                   status := CampaignStatus.completed }
            else { statsSent := c0.statsSent
                    + (contacts.foldl (syncContactStep contacts.length send)
                        { j0 with status := JobStatus.processing }).progress.sent
                   statsFailed := c0.statsFailed
                    + (contacts.foldl (syncContactStep contacts.length send)
                        { j0 with status := JobStatus.processing }).progress.failed
                   statsTotal := contacts.length
                   status := c0.status }) := by
      rcases Decidable.em (other = 0) with h0 | h0 <;> simp [processBatchSynchronously, h0]
    rw [hs2, hsyncp.1]
    rcases Decidable.em (other = 0) with h0 | h0 <;> simp [h0]
  · rfl

/-- Witness for C2 at a two-recipient batch (one success, one failure)
with one other batch still active. -/
theorem fallback_matches_durable_witness :
    (processBatchDurable [⟨1, "a@x", "a"⟩, ⟨2, "b@x", "b"⟩]
        (fun ct => if ct.contactId = 1 then .ok "smtp" "m1" else .fail "boom")
        ⟨1, [⟨1, "a@x", "a"⟩, ⟨2, "b@x", "b"⟩], .pending, ⟨2, 0, 0⟩, []⟩
        ⟨0, 0, 0, .sending⟩ 1).2
      = (processBatchSynchronously [⟨1, "a@x", "a"⟩, ⟨2, "b@x", "b"⟩]
          (fun ct => if ct.contactId = 1 then .ok "smtp" "m1" else .fail "boom")
          ⟨1, [⟨1, "a@x", "a"⟩, ⟨2, "b@x", "b"⟩], .pending, ⟨2, 0, 0⟩, []⟩
          ⟨0, 0, 0, .sending⟩ 1).2 :=
  (fallback_matches_durable [⟨1, "a@x", "a"⟩, ⟨2, "b@x", "b"⟩]
      (fun ct => if ct.contactId = 1 then .ok "smtp" "m1" else .fail "boom")
      ⟨1, [⟨1, "a@x", "a"⟩, ⟨2, "b@x", "b"⟩], .pending, ⟨2, 0, 0⟩, []⟩
      ⟨0, 0, 0, .sending⟩ 1 (by decide) rfl).2.2.2.2.1

end EmailBomber
